import Mathlib

/-!
# Verification of the cguess dependency-resolution engine

A shallow embedding, in Lean 4, of the core of `cguess.py`: the include
directive extractor, the header-candidate disambiguation heuristic, the
SQLite lookup cache, the package-backend query helpers, and the worklist
resolution loop of `main`.  Pure Python functions become Lean functions;
the stateful resolution loop becomes an explicit step function over an
`EngineState` record; effects on the operating system (file reads, the
recursive filesystem walk of `find_local_file`, `os.path.exists`, and the
external package-manager processes) are supplied through an `Env` record
of oracle functions, exactly the ports the program consults.  Python sets
are modelled as duplicate-free lists ordered by first insertion: only
membership is ever observed by the program.
-/

set_option autoImplicit false

namespace Cguess

/-! ## Small string utilities mirroring Python's `str` and `os.path` -/

/-- Python's notion of whitespace for `str.strip` and the regex class. -/
def isPySpace (c : Char) : Bool :=
  c = ' ' || c = '\t' || c = '\n' || c = '\r' || c = '\x0b' || c = '\x0c'

/-- Python `str.strip()` : drop leading and trailing whitespace. -/
def pyStrip (s : String) : String :=
  String.mk (((s.data.dropWhile isPySpace).reverse.dropWhile isPySpace).reverse)

/-- Index of the last occurrence of `c`, if any (Python `str.rfind`). -/
def lastIdxOf (c : Char) (cs : List Char) : Option Nat :=
  (cs.foldl (fun (acc : Option Nat × Nat) x =>
    (if x = c then some acc.2 else acc.1, acc.2 + 1)) (none, 0)).1

/-- Model of `os.path.dirname` for POSIX paths: everything before the final slash,
with trailing slashes stripped unless the head is all slashes. -/
def dirname (p : String) : String :=
  let cs := p.data
  match lastIdxOf '/' cs with
  | none => ""
  | some i =>
    let head := cs.take (i + 1)
    if head.all (fun c => c = '/') then String.mk head
    else String.mk ((head.reverse.dropWhile (fun c => c = '/')).reverse)

/-- The root part of `os.path.splitext` for POSIX paths: the extension is
split at the last dot, provided it lies after the last slash and the base
name does not consist solely of leading dots up to that point. -/
def splitextRoot (p : String) : String :=
  let cs := p.data
  let sepIdx : Int := match lastIdxOf '/' cs with
    | none => -1
    | some k => (k : Int)
  match lastIdxOf '.' cs with
  | none => p
  | some d =>
    if sepIdx < (d : Int) then
      let startI := (sepIdx + 1).toNat
      if ((cs.drop startI).take (d - startI)).any (fun c => c ≠ '.') then
        String.mk (cs.take d)
      else p
    else p

/-- Python `str.splitlines` restricted to the `\n` separator (the only
separator the captured command outputs contain): `""` gives `[]`, and a
trailing newline does not produce a trailing empty line. -/
def splitlinesChars : List Char → List (List Char)
  | [] => []
  | '\n' :: tail => [] :: splitlinesChars tail
  | c :: tail =>
    match splitlinesChars tail with
    | [] => [[c]]
    | l :: ls => (c :: l) :: ls

/-- Python `str.splitlines` on a `String`. -/
def splitlines (s : String) : List String :=
  (splitlinesChars s.data).map String.mk

/-- Decidable substring test, modelling Python's `in` on strings. -/
def containsSub (needle hay : List Char) : Bool :=
  match hay with
  | [] => needle.isEmpty
  | _ :: rest => needle.isPrefixOf hay || containsSub needle rest

/-- Python `str.endswith` on char lists. -/
def endsWithChars (suffix cs : List Char) : Bool :=
  suffix.reverse.isPrefixOf cs.reverse

/-! ## Constants translated from the top of `cguess.py` -/

/-- Translation of `IGNORE_PACKAGES`: development packages that are part of the standard
toolchain.  A Python `set`; only `any(... startswith ...)` membership style
queries are made, so a list is a faithful model. -/
def IGNORE_PACKAGES : List String :=
  ["libc6-dev", "glibc-devel", "gcc-libs", "libgcc",
   "libstdc++-11-dev", "libstdc++-devel",
   "linux-libc-dev"]

/-- Python `str.startswith` on the underlying character lists. -/
def pyStartsWith (s pre : String) : Bool :=
  pre.data.isPrefixOf s.data

/-- The test `any(package.startswith(p) for p in IGNORE_PACKAGES)` of line 551. -/
def ignoreMatch (package : String) : Bool :=
  IGNORE_PACKAGES.any (fun p => pyStartsWith package p)

/-- Translation of `CPP_STANDARD_HEADERS`: the fixed set of C++ standard library header
names. -/
def CPP_STANDARD_HEADERS : List String :=
  ["algorithm", "any", "array", "atomic", "bit", "bitset", "charconv",
   "chrono", "codecvt", "compare", "complex", "concepts", "condition_variable",
   "coroutine", "deque", "exception", "execution", "filesystem", "format",
   "forward_list", "fstream", "functional", "future", "initializer_list",
   "iomanip", "ios", "iosfwd", "iostream", "istream", "iterator", "limits",
   "list", "locale", "map", "memory", "memory_resource", "mutex", "new",
   "numbers", "numeric", "optional", "ostream", "queue", "random", "ranges",
   "ratio", "regex", "scoped_allocator", "set", "shared_mutex",
   "source_location", "span", "sstream", "stack", "stdexcept", "streambuf",
   "string", "string_view", "syncstream", "system_error", "thread", "tuple",
   "type_traits", "typeindex", "typeinfo", "unordered_map", "unordered_set",
   "utility", "valarray", "variant", "vector", "version",
   "cassert", "cctype", "cerrno", "cfenv", "cfloat", "cinttypes", "ciso646",
   "climits", "clocale", "cmath", "csetjmp", "csignal", "cstdalign",
   "cstdarg", "cstdbool", "cstddef", "cstdint", "cstdio", "cstdlib",
   "cstring", "ctgmath", "ctime", "cuchar", "cwchar", "cwctype",
   "assert.h", "ctype.h", "errno.h", "fenv.h", "float.h", "inttypes.h",
   "iso646.h", "limits.h", "locale.h", "math.h", "setjmp.h", "signal.h",
   "stdalign.h", "stdarg.h", "stdbool.h", "stddef.h", "stdint.h",
   "stdio.h", "stdlib.h", "string.h", "tgmath.h", "time.h", "uchar.h",
   "wchar.h", "wctype.h"]

/-! ## The include-directive regex as a deterministic parser

`INCLUDE_REGEX = re.compile(r'^\s*#\s*include\s*([<"])([^>"]+)[>"]')`,
used with `re.match` (anchored at the start of the line, trailing text
permitted).  The whitespace stars are maximal-munch safe because no
whitespace character can begin the literal that follows each of them, and
`[^>"]+` deterministically takes the maximal run of characters that are
neither `>` nor `"`, which must be non-empty and must be followed by one
more character drawn from `>` or `"` (either closer is accepted regardless
of the opener).  `match.groups()` is `(delimiter, name)` and the extractor
stores `(header_name, quote_type)`, so the parser returns `(name, delim)`. -/
def parseIncludeLine (line : String) : Option (String × Char) :=
  let s1 := line.data.dropWhile isPySpace
  match s1 with
  | '#' :: s2 =>
    let s3 := s2.dropWhile isPySpace
    if ['i', 'n', 'c', 'l', 'u', 'd', 'e'].isPrefixOf s3 then
      let s4 := (s3.drop 7).dropWhile isPySpace
      match s4 with
      | d :: s5 =>
        if d = '<' || d = '"' then
          let name := s5.takeWhile (fun c => c ≠ '>' && c ≠ '"')
          let rest := s5.dropWhile (fun c => c ≠ '>' && c ≠ '"')
          match name, rest with
          | _ :: _, _ :: _ => some (String.mk name, d)
          | _, _ => none
        else none
      | [] => none
    else none
  | _ => none

/-- Insert into a Python-set-as-list: add at the back unless present. -/
def insertHeaderPair (p : String × Char) (l : List (String × Char)) : List (String × Char) :=
  if p ∈ l then l else l ++ [p]

/-- Translation of `extract_headers_from_file`: parse every line, collecting the set of
`(header_name, quote_type)` pairs.  The file's contents are supplied as a
list of lines; an unreadable file corresponds to the empty list. -/
def extract_headers_from_file (lines : List String) : List (String × Char) :=
  lines.foldl (fun acc line =>
    match parseIncludeLine line with
    | some p => insertHeaderPair p acc
    | none => acc) []

/-! ## Symbol scoring (`score_header_match`)

`re.search(r'\b' + re.escape(symbol) + r'\b', header_content)`: the symbol
occurs in the content with a word boundary on each side.  `re.escape` makes
the symbol a literal; `\b` separates a word character (`[A-Za-z0-9_]`,
ASCII in the inputs at hand) from a non-word character or the string edge. -/

/-- A regex word character. -/
def isWordChar (c : Char) : Bool := c.isAlphanum || c = '_'

/-- There is a word boundary between the two (optional) characters. -/
def boundaryBetween (a b : Option Char) : Bool :=
  (a.elim false isWordChar) != (b.elim false isWordChar)

/-- The literal `sym` matches at the head of `content`, with the character
just before the match being `prev`, respecting both `\b` anchors. -/
def matchHere (sym : List Char) (prev : Option Char) (content : List Char) : Bool :=
  sym.isPrefixOf content &&
  boundaryBetween prev sym.head? &&
  boundaryBetween sym.getLast? ((content.drop sym.length).head?)

/-- Scan `content` left to right for a `\b sym \b` match. -/
def wordMatchAux (sym : List Char) : Option Char → List Char → Bool
  | _, [] => false
  | prev, c :: rest =>
    matchHere sym prev (c :: rest) || wordMatchAux sym (some c) rest

/-- Holds when `re.search(r'\b' + re.escape(sym) + r'\b', content)` succeeds. -/
def wordMatch (sym content : String) : Bool :=
  wordMatchAux sym.data none content.data

/-- Translation of `score_header_match`: count the source symbols that occur as whole
words in the header file's text.  The symbol set is a duplicate-free list;
the header's contents are `none` when the file cannot be read, in which
case the `except` clause leaves the score at `0`. -/
def score_header_match (source_symbols : List String) (header_content : Option String) : Nat :=
  match header_content with
  | none => 0
  | some content => (source_symbols.filter (fun sym => wordMatch sym content)).length

/-! ## Candidate selection (`main`, lines 545–548) -/

/-- A header-providing candidate: the dict
`{'package': ..., 'full_path': ...}`. -/
structure Candidate where
  package : String
  full_path : String
deriving DecidableEq, Repr

/-- Python's `max(xs, key=f)` accumulator: starting from `b`, replace the
current best only on a strictly greater key, so the first maximal element
of the whole list wins ties. -/
def foldBest {α : Type} (f : α → Nat) (b : α) (xs : List α) : α :=
  xs.foldl (fun best y => if f best < f y then y else best) b

/-- Lines 545–548: `best_candidate = candidates[0]`, then for more than
one candidate `best_candidate = max(candidates, key=...)`. -/
def bestOf {α : Type} (f : α → Nat) (c0 : α) (rest : List α) : α :=
  if rest.isEmpty then c0 else foldBest f c0 rest

/-! ## `run_command` and the Debian backend -/

/-- Outcome of `subprocess.run(command, ..., check=True)`: captured
standard output on success, or one of the two caught exception classes. -/
inductive CmdResult where
  | ok (stdout : String)
  | calledProcessError
  | fileNotFoundError
deriving DecidableEq

/-- Translation of `run_command`: the stripped standard output, or `""` when the tool is
missing (`FileNotFoundError`) or exits non-zero (`CalledProcessError`).
Total by construction: the exceptions are caught, never propagated. -/
def run_command : CmdResult → String
  | .ok s => pyStrip s
  | .calledProcessError => ""
  | .fileNotFoundError => ""

namespace DebianManager

/-- One line of `dpkg -S` output: split at the *last* colon; the path is
the stripped text after it and the package is the text before the first
colon of the left part.  A line with no colon is skipped. -/
def parseLine (line : String) : Option Candidate :=
  match lastIdxOf ':' line.data with
  | none => none
  | some i =>
    let full_path := pyStrip (String.mk (line.data.drop (i + 1)))
    let package_name := String.mk ((line.data.take i).takeWhile (fun c => c ≠ ':'))
    some ⟨package_name, full_path⟩

/-- Translation of `DebianManager.find_header_candidates`, as a function of the captured
`dpkg -S */header` output: empty output yields no candidates; otherwise
each parsed line contributes unless its `full_path` is already present. -/
def find_header_candidates (output : String) : List Candidate :=
  if output = "" then []
  else
    (splitlines output).foldl (fun acc line =>
      match parseLine line with
      | none => acc
      | some c =>
        if acc.any (fun c' => c'.full_path = c.full_path) then acc
        else acc ++ [c]) []

/-- Leftmost-match search for `LIB_REGEX = /lib([^/]+)\.so` within one
path: find the first position carrying `/lib` followed by a maximal-munch
non-slash run that still leaves `.so` to match; the capture is that run.
`greedyCapture t k` tries run lengths `k, k-1, ..., 1`. -/
def greedyCapture (t : List Char) : Nat → Option (List Char)
  | 0 => none
  | k + 1 =>
    if ['.', 's', 'o'].isPrefixOf (t.drop (k + 1)) then some (t.take (k + 1))
    else greedyCapture t k

/-- Scan for the leftmost successful `LIB_REGEX` match and return the
captured group. -/
def libSearch : List Char → Option String
  | [] => none
  | c :: rest =>
    let here :=
      if ['/', 'l', 'i', 'b'].isPrefixOf (c :: rest) then
        let t := (c :: rest).drop 4
        match greedyCapture t ((t.takeWhile (fun x => x ≠ '/')).length) with
        | some cap => some (String.mk cap)
        | none => none
      else none
    match here with
    | some cap => some cap
    | none => libSearch rest

/-- Translation of `DebianManager.find_package_info`, as a function of the captured
`dpkg -L package` output: directories of header files under
`/usr/include/`, and `LIB_REGEX` captures, both as insertion-ordered
sets. -/
def find_package_info (file_list : String) : List String × List String :=
  (splitlines file_list).foldl (fun (acc : List String × List String) file_path =>
    let (include_paths, libs) := acc
    let include_paths' :=
      if containsSub "/usr/include/".data file_path.data &&
         (endsWithChars ".h".data file_path.data ||
          endsWithChars ".hpp".data file_path.data ||
          endsWithChars ".hh".data file_path.data) then
        if dirname file_path ∈ include_paths then include_paths
        else include_paths ++ [dirname file_path]
      else include_paths
    let libs' :=
      match libSearch file_path.data with
      | some lib => if lib ∈ libs then libs else libs ++ [lib]
      | none => libs
    (include_paths', libs')) ([], [])

end DebianManager

/-! ## The lookup cache

The SQLite store holds two tables keyed by `(distro_id, name)` with
`INSERT OR REPLACE` upserts.  Rows are modelled as association lists; the
JSON columns hold `json.dumps` of lists of strings and of string-keyed
dicts, for which `json.loads` is an exact inverse, so the model stores the
structured values directly.  Python sets of strings are modelled as
duplicate-free lists (`list(s)` is then the list itself). -/

/-- First value bound to `key`, if any (the `SELECT ... WHERE` lookup). -/
def lookupRow {α : Type} (key : String × String) : List ((String × String) × α) → Option α
  | [] => none
  | (k, v) :: rest => if k = key then some v else lookupRow key rest

/-- The `INSERT OR REPLACE` upsert: replace the row with this key, or append one. -/
def upsertRow {α : Type} (key : String × String) (v : α) :
    List ((String × String) × α) → List ((String × String) × α)
  | [] => [(key, v)]
  | (k, w) :: rest =>
    if k = key then (key, v) :: rest else (k, w) :: upsertRow key v rest

/-- The `Cache` object: enabled flag, distribution identity, and the two
tables `system_headers` and `packages`. -/
structure Cache where
  enabled : Bool
  distro_id : String
  system_headers : List ((String × String) × List Candidate)
  packages : List ((String × String) × (List String × List String))
deriving DecidableEq

namespace Cache

/-- Translation of `Cache.get('system_headers', key)`: `None` when disabled, else the
deserialized `candidates_json` of the row keyed `(distro_id, key)`. -/
def get_system_headers (c : Cache) (key : String) : Option (List Candidate) :=
  if c.enabled = false then none
  else lookupRow (c.distro_id, key) c.system_headers

/-- Translation of `Cache.get('packages', key)`. -/
def get_packages (c : Cache) (key : String) : Option (List String × List String) :=
  if c.enabled = false then none
  else lookupRow (c.distro_id, key) c.packages

/-- Translation of `Cache.set('system_headers', key, value)`: no-op when disabled, else
an upsert keyed `(distro_id, key)`. -/
def set_system_headers (c : Cache) (key : String) (value : List Candidate) : Cache :=
  if c.enabled = false then c
  else { c with system_headers := upsertRow (c.distro_id, key) value c.system_headers }

/-- Translation of `Cache.set('packages', key, value)`: the two set components are stored
as `json.dumps(list(...))`, i.e. as their underlying lists. -/
def set_packages (c : Cache) (key : String) (value : List String × List String) : Cache :=
  if c.enabled = false then c
  else { c with packages := upsertRow (c.distro_id, key) value c.packages }

end Cache

/-- Result of the cache-wrapped candidate lookup: the candidate list, the
cache after the call, and whether the Package Backend was queried. -/
structure LookupResult where
  result : List Candidate
  cache : Cache
  backend_queried : Bool
deriving DecidableEq

/-- Module-level `find_header_candidates(header, pm, cache)`: the guard is
Python's `if cached_candidates:`, which is truthy only for a *non-empty*
cached list — `None` (a miss or a disabled cache) and `[]` both fall
through to the backend query followed by a cache store. -/
def find_header_candidates (header : String) (pm : String → List Candidate)
    (cache : Cache) : LookupResult :=
  match cache.get_system_headers header with
  | some (c :: cs) => ⟨c :: cs, cache, false⟩
  | _ =>
    let candidates := pm header
    ⟨candidates, cache.set_system_headers header candidates, true⟩

/-- Module-level `find_package_info(package_name, pm, cache)`: the cached
pair is truthy whenever present (a 2-tuple is always truthy in Python), so
any hit short-circuits; `set(cached[0]), set(cached[1])` re-forms the sets
from the stored lists. -/
def find_package_info (package_name : String)
    (pm : String → List String × List String) (cache : Cache) :
    (List String × List String) × Cache × Bool :=
  match cache.get_packages package_name with
  | some info => (info, cache, false)
  | none =>
    let info := pm package_name
    (info, cache.set_packages package_name info, true)

/-! ## The resolution engine (`main`, lines 502–560)

The loop body is translated into a step function over the engine's state.
Filesystem and package-manager effects go through an `Env` of oracles:

* `findLocal name` is `find_local_file(name, project_root)` — the walk of
  the fixed project root, returning the found path.  `project_root` is
  `os.path.dirname(os.path.abspath(args.source_file))`, an absolute path,
  so the result is already absolute and `os.path.abspath` on it is the
  identity.
* `fileLines path` is the line content of `path` (empty for unreadable
  files), consumed by `extract_headers_from_file`.
* `pathExists` is `os.path.exists`.
* `sourceSymbols` is `analyze_source_for_symbols(main_source_file)` —
  recomputed each iteration from the same fixed file, hence a constant.
* `fileContent path` is the text of `path` for `score_header_match`
  (`none` when unreadable).
* `candidates name` is the cache-wrapped `find_header_candidates`: within
  one run its result per name is a fixed list (the cached value when the
  run began with a non-empty cached entry, the backend's answer
  otherwise), so it is modelled as a function of the name.
* `pkgInfo` is the cache-wrapped `find_package_info`, likewise fixed per
  package within a run. -/

/-- The oracle environment for one resolution run. -/
structure Env where
  findLocal : String → Option String
  fileLines : String → List String
  pathExists : String → Bool
  sourceSymbols : List String
  fileContent : String → Option String
  candidates : String → List Candidate
  pkgInfo : String → List String × List String

/-- The engine's mutable state: the worklist and the five Python sets of
`main`, each set modelled as a duplicate-free insertion-ordered list. -/
structure EngineState where
  worklist : List (String × Char)
  processed_local_headers : List String
  processed_system_packages : List String
  all_source_files : List String
  all_include_paths : List String
  all_libs : List String
deriving DecidableEq, Repr

/-- Python `set.add`: append unless already present. -/
def insertSet (x : String) (l : List String) : List String :=
  if x ∈ l then l else l ++ [x]

/-- Python `set.update`: fold `insertSet` over the new elements. -/
def unionSet (l : List String) (new : List String) : List String :=
  new.foldl (fun acc x => insertSet x acc) l

/-- Lines 533–535: append each extracted header whose name is not in the
resolved set and which is not already queued; the membership test sees the
items appended earlier in the same loop. -/
def pushNew (processed : List String) (wl : List (String × Char))
    (hs : List (String × Char)) : List (String × Char) :=
  hs.foldl (fun acc h => if h.1 ∈ processed ∨ h ∈ acc then acc else acc ++ [h]) wl

/-- The external interactions one loop iteration performs (used to state
that the standard-header guard fires before any lookup). -/
inductive Query where
  | localFind (name : String)
  | headerCandidates (name : String)
  | packageInfo (package : String)
deriving DecidableEq, Repr

/-- The engine's per-candidate score: `score_header_match(source_symbols,
c['full_path'])`, reading the candidate file through the environment. -/
def engineScore (env : Env) (c : Candidate) : Nat :=
  score_header_match env.sourceSymbols (env.fileContent c.full_path)

/-- One iteration of the `while headers_to_process:` loop (lines 510–560),
returning the successor state and the queries issued, or `none` when the
worklist is empty and the loop exits. -/
def stepQ (env : Env) (s : EngineState) : Option (EngineState × List Query) :=
  match s.worklist with
  | [] => none
  | (header_name, quote_type) :: rest =>
    -- line 513: standard header, or name already recorded as resolved
    if header_name ∈ CPP_STANDARD_HEADERS ∨ header_name ∈ s.processed_local_headers then
      some ({ s with worklist := rest }, [])
    else
      -- lines 516–518: only quoted includes are looked up locally
      let local_header_path := if quote_type = '"' then env.findLocal header_name else none
      let localQs := if quote_type = '"' then [Query.localFind header_name] else []
      match local_header_path with
      | some abs_local_header_path =>
        -- lines 520–536 (abspath is the identity on the walk's result)
        let processed' := insertSet abs_local_header_path s.processed_local_headers
        let includes' := insertSet (dirname abs_local_header_path) s.all_include_paths
        let cpp_file := splitextRoot abs_local_header_path ++ ".cpp"
        let sources' :=
          if env.pathExists cpp_file then insertSet cpp_file s.all_source_files
          else s.all_source_files
        let new_headers := extract_headers_from_file (env.fileLines abs_local_header_path)
        some ({ s with
                worklist := pushNew processed' rest new_headers,
                processed_local_headers := processed',
                all_include_paths := includes',
                all_source_files := sources' }, localQs)
      | none =>
        -- lines 538–560: the system path
        match env.candidates header_name with
        | [] =>
          some ({ s with worklist := rest }, localQs ++ [Query.headerCandidates header_name])
        | c0 :: restCands =>
          let best := bestOf (engineScore env) c0 restCands
          if best.package ∈ s.processed_system_packages ∨ ignoreMatch best.package = true then
            some ({ s with worklist := rest }, localQs ++ [Query.headerCandidates header_name])
          else
            let info := env.pkgInfo best.package
            some ({ s with
                    worklist := rest,
                    processed_system_packages := insertSet best.package s.processed_system_packages,
                    all_include_paths := unionSet s.all_include_paths info.1,
                    all_libs := unionSet s.all_libs info.2 },
                  localQs ++ [Query.headerCandidates header_name, Query.packageInfo best.package])

/-- The successor state of one loop iteration. -/
def step (env : Env) (s : EngineState) : Option EngineState :=
  (stepQ env s).map Prod.fst

/-- Run the loop with the given amount of fuel: `some s` is the final
state of a loop that exited within the fuel, `none` means the fuel ran out
first. -/
def run (env : Env) : Nat → EngineState → Option EngineState
  | 0, _ => none
  | n + 1, s =>
    match step env s with
    | none => some s
    | some s' => run env n s'

/-! ## A concrete project with a mutual include cycle

Entry file `/proj/main.cpp` includes `"B.h"`; header `/proj/b/B.h`
includes `"C.h"` and header `/proj/c/C.h` includes `"B.h"`.  No sibling
`.cpp` files exist and no system lookups succeed. -/

/-- The oracle environment of the cyclic project. -/
def envC1 : Env where
  findLocal := fun n =>
    if n = "B.h" then some "/proj/b/B.h"
    else if n = "C.h" then some "/proj/c/C.h"
    else none
  fileLines := fun p =>
    if p = "/proj/b/B.h" then ["#include \"C.h\""]
    else if p = "/proj/c/C.h" then ["#include \"B.h\""]
    else []
  pathExists := fun _ => false
  sourceSymbols := []
  fileContent := fun _ => none
  candidates := fun _ => []
  pkgInfo := fun _ => ([], [])

/-- The engine state as the loop is entered: worklist seeded from the
entry file, the entry file pre-added to the source set. -/
def stateC1 : EngineState where
  worklist := [("B.h", '"')]
  processed_local_headers := []
  processed_system_packages := []
  all_source_files := ["/proj/main.cpp"]
  all_include_paths := []
  all_libs := []

/-- The state after resolving both headers once; its worklist still holds
`B.h` because the guards compare header names against recorded absolute
paths. -/
def stateC1even : EngineState where
  worklist := [("B.h", '"')]
  processed_local_headers := ["/proj/b/B.h", "/proj/c/C.h"]
  processed_system_packages := []
  all_source_files := ["/proj/main.cpp"]
  all_include_paths := ["/proj/b", "/proj/c"]
  all_libs := []

/-- The companion state of the loop's period-two orbit, with `C.h`
queued. -/
def stateC1odd : EngineState where
  worklist := [("C.h", '"')]
  processed_local_headers := ["/proj/b/B.h", "/proj/c/C.h"]
  processed_system_packages := []
  all_source_files := ["/proj/main.cpp"]
  all_include_paths := ["/proj/b", "/proj/c"]
  all_libs := []

/-! ## Termination lemmas for `run` -/

/-- Unfold one iteration of `run` along a known step. -/
theorem run_succ_of_step {env : Env} {s s' : EngineState}
    (h : step env s = some s') (n : Nat) :
    run env (n + 1) s = run env n s' := by
  simp [run, h]

/-- A period-two orbit of `step` never reaches loop exit. -/
theorem run_none_of_cycle {env : Env} {a b : EngineState}
    (hab : step env a = some b) (hba : step env b = some a) :
    ∀ n, run env n a = none ∧ run env n b = none := by
  intro n
  induction n with
  | zero => exact ⟨rfl, rfl⟩
  | succ n ih =>
    exact ⟨(run_succ_of_step hab n).trans ih.2, (run_succ_of_step hba n).trans ih.1⟩

/-- Non-termination is preserved along a backwards step. -/
theorem run_none_of_step {env : Env} {s s' : EngineState}
    (h : step env s = some s') (hs' : ∀ n, run env n s' = none) :
    ∀ n, run env n s = none := by
  intro n
  cases n with
  | zero => rfl
  | succ n => exact (run_succ_of_step h n).trans (hs' n)

/-- The state one iteration after `stateC1`: `B.h` resolved, `C.h`
queued. -/
def stateC1mid : EngineState where
  worklist := [("C.h", '"')]
  processed_local_headers := ["/proj/b/B.h"]
  processed_system_packages := []
  all_source_files := ["/proj/main.cpp"]
  all_include_paths := ["/proj/b"]
  all_libs := []

/-- C1: the claim asserts that resolution terminates on a mutual include
cycle between local headers B and C.  It does not: `processed_local_headers`
records absolute paths (line 523) while the guards of lines 513 and 534
test bare header names against it, so from `stateC1` the loop reaches the
period-two orbit `stateC1even ⇄ stateC1odd` and never exits, whatever the
fuel. -/
theorem claim_C1_cycle_nontermination : ∀ n, run envC1 n stateC1 = none := by
  have hcyc := @run_none_of_cycle envC1 stateC1even stateC1odd
    (by decide) (by decide)
  have hmid : ∀ n, run envC1 n stateC1mid = none :=
    run_none_of_step (by decide) (fun n => (hcyc n).1)
  exact run_none_of_step (by decide) hmid

/-- C3: a Header Reference whose name is in the fixed standard-library
header set is discarded by line 513 with no local or system lookup and no
state change beyond removing it from the worklist. -/
theorem claim_C3_standard_header_guard (env : Env) (s : EngineState)
    (name : String) (q : Char) (rest : List (String × Char))
    (hw : s.worklist = (name, q) :: rest)
    (hstd : name ∈ CPP_STANDARD_HEADERS) :
    stepQ env s = some ({ s with worklist := rest }, []) := by
  rcases s with ⟨wl, pl, ps, sf, ip, lb⟩
  simp only at hw
  subst hw
  simp only [stepQ]
  rw [if_pos (Or.inl hstd)]

/-- Witness for C3: the standard header `vector`, popped from a concrete
state, is dropped with an empty query list. -/
theorem claim_C3_witness :
    stepQ envC1
        { worklist := [("vector", '<')], processed_local_headers := [],
          processed_system_packages := [], all_source_files := [],
          all_include_paths := [], all_libs := [] } =
      some ({ worklist := [], processed_local_headers := [],
              processed_system_packages := [], all_source_files := [],
              all_include_paths := [], all_libs := [] }, []) :=
  claim_C3_standard_header_guard envC1 _ "vector" '<' [] rfl (by decide)

/-! ## Worklist-guard lemmas (claim C2) -/

/-- Everything in the post-push worklist was already queued, or is a newly
extracted header whose name is not in the resolved set. -/
theorem pushNew_mem {processed : List String} :
    ∀ (hs wl : List (String × Char)) (h : String × Char),
      h ∈ pushNew processed wl hs → h ∈ wl ∨ (h.1 ∉ processed ∧ h ∈ hs) := by
  intro hs
  induction hs with
  | nil => intro wl h hmem; exact Or.inl hmem
  | cons h0 tl ih =>
    intro wl h hmem
    simp only [pushNew, List.foldl_cons] at hmem
    by_cases hg : h0.1 ∈ processed ∨ h0 ∈ wl
    · rw [if_pos hg] at hmem
      rcases ih wl h hmem with hin | ⟨hp, ht⟩
      · exact Or.inl hin
      · exact Or.inr ⟨hp, List.mem_cons_of_mem _ ht⟩
    · rw [if_neg hg] at hmem
      rcases ih (wl ++ [h0]) h hmem with hin | ⟨hp, ht⟩
      · rcases List.mem_append.mp hin with hw | hh
        · exact Or.inl hw
        · have : h = h0 := by simpa using hh
          subst this
          exact Or.inr ⟨fun hc => hg (Or.inl hc), List.mem_cons_self _ _⟩
      · exact Or.inr ⟨hp, List.mem_cons_of_mem _ ht⟩

/-- The guarded push keeps the worklist free of duplicate entries. -/
theorem pushNew_nodup {processed : List String} :
    ∀ (hs wl : List (String × Char)), wl.Nodup → (pushNew processed wl hs).Nodup := by
  intro hs
  induction hs with
  | nil => intro wl hnd; exact hnd
  | cons h0 tl ih =>
    intro wl hnd
    simp only [pushNew, List.foldl_cons]
    by_cases hg : h0.1 ∈ processed ∨ h0 ∈ wl
    · rw [if_pos hg]; exact ih wl hnd
    · rw [if_neg hg]
      refine ih (wl ++ [h0]) ?_
      have hnin : h0 ∉ wl := fun hc => hg (Or.inr hc)
      simp [List.nodup_append, hnd, hnin]

/-- Shape of one step's worklist: the popped entry is removed, and the
only additions go through `pushNew`. -/
theorem step_worklist_shape {env : Env} {s s' : EngineState}
    (h : step env s = some s') :
    ∃ name q rest, s.worklist = (name, q) :: rest ∧
      (s'.worklist = rest ∨
        ∃ processed hs, s'.worklist = pushNew processed rest hs) := by
  rcases s with ⟨wl, pl, ps, sf, ip, lb⟩
  rcases wl with _ | ⟨⟨name, q⟩, rest⟩
  · simp [step, stepQ] at h
  · refine ⟨name, q, rest, rfl, ?_⟩
    simp only [step] at h
    rw [Option.map_eq_some'] at h
    obtain ⟨⟨t, qs⟩, hq, hts⟩ := h
    simp only at hts
    subst hts
    simp only [stepQ] at hq
    split at hq
    · cases hq; exact Or.inl rfl
    · split at hq
      · cases hq; exact Or.inr ⟨_, _, rfl⟩
      · split at hq
        · cases hq; exact Or.inl rfl
        · split at hq
          · cases hq; exact Or.inl rfl
          · cases hq; exact Or.inl rfl

/-- C2: (1) a popped Header Reference whose name is in the local-resolved
set is discarded — the step only removes it from the worklist and issues
no query; (2) `pushNew` (lines 533–535) never enqueues an entry unless it
was already queued or its name is absent from the resolved set; (3)
consequently a worklist without duplicate entries stays without duplicate
entries across every step. -/
theorem claim_C2_resolved_guard (env : Env) :
    (∀ (s : EngineState) (name : String) (q : Char) (rest : List (String × Char)),
      s.worklist = (name, q) :: rest → name ∈ s.processed_local_headers →
      stepQ env s = some ({ s with worklist := rest }, [])) ∧
    (∀ (processed : List String) (wl hs : List (String × Char)) (h : String × Char),
      h ∈ pushNew processed wl hs → h ∈ wl ∨ (h.1 ∉ processed ∧ h ∈ hs)) ∧
    (∀ s s' : EngineState, step env s = some s' →
      s.worklist.Nodup → s'.worklist.Nodup) := by
  refine ⟨?_, ?_, ?_⟩
  · intro s name q rest hw hmem
    rcases s with ⟨wl, pl, ps, sf, ip, lb⟩
    simp only at hw
    subst hw
    simp only [stepQ]
    rw [if_pos (Or.inr hmem)]
  · intro processed wl hs h hmem
    exact pushNew_mem hs wl h hmem
  · intro s s' hstep hnd
    obtain ⟨name, q, rest, hw, hshape⟩ := step_worklist_shape hstep
    have hrest : rest.Nodup := by
      rw [hw] at hnd
      exact hnd.of_cons
    rcases hshape with hr | ⟨processed, hs, hr⟩
    · rw [hr]; exact hrest
    · rw [hr]; exact pushNew_nodup hs rest hrest

/-- Witness for C2: each conjunct applied at a concrete input — a resolved
name is dropped with no query, a pushed header is new and unresolved, and
the concrete step out of `stateC1` preserves worklist distinctness. -/
theorem claim_C2_witness :
    (stepQ envC1
        { worklist := [("B.h", '"')], processed_local_headers := ["B.h"],
          processed_system_packages := [], all_source_files := [],
          all_include_paths := [], all_libs := [] } =
      some ({ worklist := [], processed_local_headers := ["B.h"],
              processed_system_packages := [], all_source_files := [],
              all_include_paths := [], all_libs := [] }, [])) ∧
    ((("C.h", '"') ∈ ([] : List (String × Char))) ∨
      (("C.h" : String) ∉ (["/proj/b/B.h"] : List String) ∧
        ("C.h", '"') ∈ ([("C.h", '"')] : List (String × Char)))) ∧
    stateC1mid.worklist.Nodup :=
  ⟨(claim_C2_resolved_guard envC1).1 _ "B.h" '"' [] rfl (by decide),
   (claim_C2_resolved_guard envC1).2.1 ["/proj/b/B.h"] [] [("C.h", '"')] ("C.h", '"')
     (by decide),
   (claim_C2_resolved_guard envC1).2.2 stateC1 stateC1mid (by decide) (by decide)⟩

/-! ## Specification of Python `max` (claim C4) -/

/-- Unfold one accumulator step of `foldBest`. -/
theorem foldBest_cons {α : Type} (f : α → Nat) (b y : α) (ys : List α) :
    foldBest f b (y :: ys) = foldBest f (if f b < f y then y else b) ys := rfl

/-- The accumulator `foldBest` either keeps the seed — then the seed dominates — or
returns the first list element that strictly exceeds the seed and is not
strictly exceeded later. -/
theorem foldBest_spec {α : Type} (f : α → Nat) :
    ∀ (xs : List α) (b : α),
      (foldBest f b xs = b ∧ ∀ y ∈ xs, f y ≤ f b) ∨
      (∃ i : Fin xs.length,
        foldBest f b xs = xs.get i ∧ f b < f (xs.get i) ∧
        (∀ y ∈ xs, f y ≤ f (xs.get i)) ∧
        (∀ j : Fin xs.length, (j : Nat) < (i : Nat) → f (xs.get j) < f (xs.get i))) := by
  intro xs
  induction xs with
  | nil =>
    intro b
    exact Or.inl ⟨rfl, by intro y hy; cases hy⟩
  | cons y ys ih =>
    intro b
    by_cases hlt : f b < f y
    · have hstep : foldBest f b (y :: ys) = foldBest f y ys := by
        rw [foldBest_cons, if_pos hlt]
      rcases ih y with ⟨heq, hall⟩ | ⟨i, heq, hgt, hall, hfirst⟩
      · refine Or.inr ⟨⟨0, Nat.succ_pos _⟩, hstep.trans heq, hlt, ?_, ?_⟩
        · intro z hz
          rcases List.mem_cons.mp hz with rfl | hz
          · exact Nat.le_refl _
          · exact hall z hz
        · intro j hj
          exact absurd hj (Nat.not_lt_zero _)
      · refine Or.inr ⟨⟨i.val + 1, Nat.succ_lt_succ i.isLt⟩, hstep.trans heq,
          Nat.lt_trans hlt hgt, ?_, ?_⟩
        · intro z hz
          rcases List.mem_cons.mp hz with rfl | hz
          · exact Nat.le_of_lt hgt
          · exact hall z hz
        · intro j hj
          rcases j with ⟨jv, hjv⟩
          cases jv with
          | zero => exact hgt
          | succ jv' =>
            exact hfirst ⟨jv', Nat.lt_of_succ_lt_succ hjv⟩ (Nat.lt_of_succ_lt_succ hj)
    · have hstep : foldBest f b (y :: ys) = foldBest f b ys := by
        rw [foldBest_cons, if_neg hlt]
      have hyb : f y ≤ f b := Nat.le_of_not_lt hlt
      rcases ih b with ⟨heq, hall⟩ | ⟨i, heq, hgt, hall, hfirst⟩
      · refine Or.inl ⟨by rw [hstep, heq], ?_⟩
        intro z hz
        rcases List.mem_cons.mp hz with rfl | hz
        · exact hyb
        · exact hall z hz
      · refine Or.inr ⟨⟨i.val + 1, Nat.succ_lt_succ i.isLt⟩, hstep.trans heq, hgt, ?_, ?_⟩
        · intro z hz
          rcases List.mem_cons.mp hz with rfl | hz
          · exact Nat.le_of_lt (Nat.lt_of_le_of_lt hyb hgt)
          · exact hall z hz
        · intro j hj
          rcases j with ⟨jv, hjv⟩
          cases jv with
          | zero => exact Nat.lt_of_le_of_lt hyb hgt
          | succ jv' =>
            exact hfirst ⟨jv', Nat.lt_of_succ_lt_succ hjv⟩ (Nat.lt_of_succ_lt_succ hj)

/-- C4: with more than one candidate, the engine's selection (lines
545–548, Python `max` keyed by `score_header_match`) is a candidate of
maximal whole-word symbol match count, and every candidate placed earlier
in backend-returned order scores strictly lower — so on ties the first
maximal candidate wins, deterministically. -/
theorem claim_C4_disambiguation (env : Env) (c0 : Candidate) (cs : List Candidate)
    (hne : cs ≠ []) :
    ∃ i : Fin (c0 :: cs).length,
      (c0 :: cs).get i = bestOf (engineScore env) c0 cs ∧
      (∀ c ∈ c0 :: cs,
        engineScore env c ≤ engineScore env (bestOf (engineScore env) c0 cs)) ∧
      ∀ j : Fin (c0 :: cs).length, (j : Nat) < (i : Nat) →
        engineScore env ((c0 :: cs).get j) <
          engineScore env (bestOf (engineScore env) c0 cs) := by
  have hbe : bestOf (engineScore env) c0 cs = foldBest (engineScore env) c0 cs := by
    unfold bestOf
    rw [if_neg]
    cases cs with
    | nil => exact absurd rfl hne
    | cons a as => simp [List.isEmpty]
  rw [hbe]
  rcases foldBest_spec (engineScore env) cs c0 with ⟨heq, hall⟩ | ⟨i, heq, hgt, hall, hfirst⟩
  · refine ⟨⟨0, Nat.succ_pos _⟩, heq.symm, ?_, ?_⟩
    · intro c hc
      rw [heq]
      rcases List.mem_cons.mp hc with rfl | hc
      · exact Nat.le_refl _
      · exact hall c hc
    · intro j hj
      exact absurd hj (Nat.not_lt_zero _)
  · refine ⟨⟨i.val + 1, Nat.succ_lt_succ i.isLt⟩, heq.symm, ?_, ?_⟩
    · intro c hc
      rw [heq]
      rcases List.mem_cons.mp hc with rfl | hc
      · exact Nat.le_of_lt hgt
      · exact hall c hc
    · intro j hj
      rw [heq]
      rcases j with ⟨jv, hjv⟩
      cases jv with
      | zero => exact hgt
      | succ jv' =>
        exact hfirst ⟨jv', Nat.lt_of_succ_lt_succ hjv⟩ (Nat.lt_of_succ_lt_succ hj)

/-- A two-candidate disambiguation scenario: the entry file calls `sqrt`
and `cosf`; only the second candidate's header text contains them. -/
def envC4 : Env where
  findLocal := fun _ => none
  fileLines := fun _ => []
  pathExists := fun _ => false
  sourceSymbols := ["sqrt", "cosf"]
  fileContent := fun p =>
    if p = "/usr/include/a.h" then some "int frob(char);"
    else if p = "/usr/include/b.h" then some "double sqrt(double); float cosf(float);"
    else none
  candidates := fun _ => []
  pkgInfo := fun _ => ([], [])

/-- First backend candidate of the C4 scenario. -/
def candA : Candidate := ⟨"liba-dev", "/usr/include/a.h"⟩

/-- Second backend candidate of the C4 scenario. -/
def candB : Candidate := ⟨"libb-dev", "/usr/include/b.h"⟩

/-- Witness for C4 at the two-candidate scenario. -/
theorem claim_C4_witness :
    ([candB] : List Candidate) ≠ [] ∧
    ∃ i : Fin (candA :: [candB]).length,
      (candA :: [candB]).get i = bestOf (engineScore envC4) candA [candB] ∧
      (∀ c ∈ candA :: [candB],
        engineScore envC4 c ≤ engineScore envC4 (bestOf (engineScore envC4) candA [candB])) ∧
      ∀ j : Fin (candA :: [candB]).length, (j : Nat) < (i : Nat) →
        engineScore envC4 ((candA :: [candB]).get j) <
          engineScore envC4 (bestOf (engineScore envC4) candA [candB]) :=
  ⟨by decide, claim_C4_disambiguation envC4 candA [candB] (by decide)⟩

/-! ## Cache lemmas (claims C5 and C6) -/

/-- An `INSERT OR REPLACE` followed by a `SELECT` of the same key returns the
inserted value. -/
theorem lookupRow_upsertRow {α : Type} (key : String × String) (v : α)
    (rows : List ((String × String) × α)) :
    lookupRow key (upsertRow key v rows) = some v := by
  induction rows with
  | nil => simp [upsertRow, lookupRow]
  | cons kv rest ih =>
    rcases kv with ⟨k, w⟩
    by_cases hk : k = key
    · simp [upsertRow, lookupRow, hk]
    · simp [upsertRow, lookupRow, hk, ih]

/-- An enabled fresh cache for concrete scenarios. -/
def cacheC5 : Cache := ⟨true, "debian", [], []⟩

/-- A backend that never finds a provider. -/
def pmEmpty : String → List Candidate := fun _ => []

/-- Counterexample to C5 as stated: after the first query for `png.h`
stores the empty candidate list, the next lookup for the same key under
the same distribution identity queries the Package Backend again — the
truthiness guard `if cached_candidates:` treats a cached `[]` as a miss. -/
theorem claim_C5_counterexample :
    (find_header_candidates "png.h" pmEmpty
        (find_header_candidates "png.h" pmEmpty cacheC5).cache).backend_queried = true := by
  decide

/-- C5 as amended: a lookup that misses queries the backend and stores the
result; when the backend's candidate list is non-empty, every subsequent
lookup for the same key returns the stored list without querying the
backend again.  (A stored empty list is re-queried — see the
counterexample.) -/
theorem claim_C5_amended (c : Cache) (pm : String → List Candidate) (header : String)
    (henabled : c.enabled = true)
    (hmiss : c.get_system_headers header = none)
    (hne : pm header ≠ []) :
    (find_header_candidates header pm c).backend_queried = true ∧
    find_header_candidates header pm (find_header_candidates header pm c).cache =
      ⟨pm header, (find_header_candidates header pm c).cache, false⟩ := by
  have h1 : find_header_candidates header pm c =
      ⟨pm header, c.set_system_headers header (pm header), true⟩ := by
    rw [find_header_candidates, hmiss]
  have hget : (c.set_system_headers header (pm header)).get_system_headers header =
      some (pm header) := by
    rw [Cache.set_system_headers, if_neg (by simp [henabled])]
    rw [Cache.get_system_headers]
    rw [if_neg (by simp [henabled])]
    exact lookupRow_upsertRow _ _ _
  refine ⟨by rw [h1], ?_⟩
  rw [h1]
  rcases hpm : pm header with _ | ⟨x, xs⟩
  · exact absurd hpm hne
  · rw [find_header_candidates]
    rw [hpm] at hget
    rw [hget, hpm]

/-- A backend with one provider for every header. -/
def pmOne : String → List Candidate := fun _ => [⟨"libpng-dev", "/usr/include/png.h"⟩]

/-- Witness for the amended C5 at a concrete cache and backend. -/
theorem claim_C5_witness :
    cacheC5.enabled = true ∧
    cacheC5.get_system_headers "png.h" = none ∧
    pmOne "png.h" ≠ [] ∧
    ((find_header_candidates "png.h" pmOne cacheC5).backend_queried = true ∧
      find_header_candidates "png.h" pmOne (find_header_candidates "png.h" pmOne cacheC5).cache =
        ⟨pmOne "png.h", (find_header_candidates "png.h" pmOne cacheC5).cache, false⟩) :=
  ⟨rfl, rfl, by decide,
    claim_C5_amended cacheC5 pmOne "png.h" rfl rfl (by decide)⟩

/-- C6: on an enabled cache, `set` then `get` for the same
`(distribution, namespace, key)` returns exactly the stored value, in both
the header-candidates and the package-info namespaces. -/
theorem claim_C6_cache_roundtrip (c : Cache) (henabled : c.enabled = true)
    (key : String) (v : List Candidate) (p : List String × List String) :
    (c.set_system_headers key v).get_system_headers key = some v ∧
    (c.set_packages key p).get_packages key = some p := by
  have hne : ¬ c.enabled = false := by simp [henabled]
  constructor
  · rw [Cache.set_system_headers, if_neg hne, Cache.get_system_headers, if_neg hne]
    exact lookupRow_upsertRow _ _ _
  · rw [Cache.set_packages, if_neg hne, Cache.get_packages, if_neg hne]
    exact lookupRow_upsertRow _ _ _

/-- Witness for C6: a concrete round trip in each namespace. -/
theorem claim_C6_witness :
    cacheC5.enabled = true ∧
    ((cacheC5.set_system_headers "zlib.h" [⟨"zlib1g-dev", "/usr/include/zlib.h"⟩]).get_system_headers
        "zlib.h" = some [⟨"zlib1g-dev", "/usr/include/zlib.h"⟩] ∧
      (cacheC5.set_packages "zlib1g-dev" (["/usr/include"], ["z"])).get_packages "zlib1g-dev" =
        some (["/usr/include"], ["z"])) :=
  ⟨rfl, claim_C6_cache_roundtrip cacheC5 rfl "zlib.h"
    [⟨"zlib1g-dev", "/usr/include/zlib.h"⟩] (["/usr/include"], ["z"])⟩

/-! ## Toolchain suppression (claim C7) -/

/-- C7: when the selected best candidate's package name starts with a
toolchain-ignore entry, the step discards the header: the output include
paths, libraries, source files and processed-package set are left exactly
as they were (line 551's `continue`), even when that candidate is the sole
or the top-scoring one. -/
theorem claim_C7_toolchain_suppression (env : Env) (s : EngineState)
    (name : String) (q : Char) (rest : List (String × Char))
    (c0 : Candidate) (restCands : List Candidate)
    (hw : s.worklist = (name, q) :: rest)
    (hstd : name ∉ CPP_STANDARD_HEADERS)
    (hres : name ∉ s.processed_local_headers)
    (hlocal : (if q = '"' then env.findLocal name else none) = none)
    (hcands : env.candidates name = c0 :: restCands)
    (hign : ignoreMatch (bestOf (engineScore env) c0 restCands).package = true) :
    step env s = some { s with worklist := rest } := by
  rcases s with ⟨wl, pl, ps, sf, ip, lb⟩
  simp only at hw hres
  subst hw
  simp only [step, stepQ, hlocal, hcands]
  rw [if_neg (fun hc => hc.elim hstd hres), if_pos (Or.inr hign)]
  rfl

/-- The standard C library's own header resolving to a toolchain package:
`zlib.h` is angle-included and its sole candidate is owned by
`libc6-dev`. -/
def envC7 : Env where
  findLocal := fun _ => none
  fileLines := fun _ => []
  pathExists := fun _ => false
  sourceSymbols := []
  fileContent := fun _ => none
  candidates := fun n =>
    if n = "zlib.h" then [⟨"libc6-dev", "/usr/include/zlib.h"⟩] else []
  pkgInfo := fun _ => (["/usr/include"], ["c"])

/-- The loop state with only `zlib.h` pending. -/
def stateC7 : EngineState where
  worklist := [("zlib.h", '<')]
  processed_local_headers := []
  processed_system_packages := []
  all_source_files := ["/proj/main.cpp"]
  all_include_paths := []
  all_libs := []

/-- Witness for C7: the sole candidate `libc6-dev` is suppressed and the
state only loses the popped worklist entry. -/
theorem claim_C7_witness :
    step envC7 stateC7 = some { stateC7 with worklist := [] } :=
  claim_C7_toolchain_suppression envC7 stateC7 "zlib.h" '<' []
    ⟨"libc6-dev", "/usr/include/zlib.h"⟩ []
    rfl (by decide) (by decide) (by decide) (by decide) (by decide)

/-! ## Failure isolation (claim C8) -/

/-- An element is a member of the set it was just added to. -/
theorem mem_insertSet_self (x : String) (l : List String) : x ∈ insertSet x l := by
  by_cases h : x ∈ l <;> simp [insertSet, h]

/-- C8: a missing backend tool (`FileNotFoundError`) or a non-zero exit
(`CalledProcessError`) makes `run_command` return the empty string rather
than propagate; on the empty string the Debian backend reports no
candidates and an empty package info; and a header whose candidate query
comes back empty is simply dropped from the worklist, leaving every output
set intact — the run continues. -/
theorem claim_C8_failure_isolation :
    run_command CmdResult.calledProcessError = "" ∧
    run_command CmdResult.fileNotFoundError = "" ∧
    DebianManager.find_header_candidates (run_command CmdResult.calledProcessError) = [] ∧
    DebianManager.find_package_info (run_command CmdResult.fileNotFoundError) = ([], []) ∧
    (∀ (env : Env) (s : EngineState) (name : String) (q : Char)
        (rest : List (String × Char)),
      s.worklist = (name, q) :: rest →
      name ∉ CPP_STANDARD_HEADERS → name ∉ s.processed_local_headers →
      (if q = '"' then env.findLocal name else none) = none →
      env.candidates name = [] →
      step env s = some { s with worklist := rest }) := by
  refine ⟨rfl, rfl, rfl, rfl, ?_⟩
  intro env s name q rest hw hstd hres hlocal hcands
  rcases s with ⟨wl, pl, ps, sf, ip, lb⟩
  simp only at hw hres
  subst hw
  simp only [step, stepQ, hlocal, hcands]
  rw [if_neg (fun hc => hc.elim hstd hres)]
  rfl

/-- A backend environment in which every external query failed: no
candidates are ever reported. -/
def envC8 : Env where
  findLocal := fun _ => none
  fileLines := fun _ => []
  pathExists := fun _ => false
  sourceSymbols := []
  fileContent := fun _ => none
  candidates := fun _ => []
  pkgInfo := fun _ => ([], [])

/-- Witness for C8: with every lookup failing, the pending system header
is dropped and the state is otherwise untouched. -/
theorem claim_C8_witness :
    step envC8 stateC7 = some { stateC7 with worklist := [] } :=
  claim_C8_failure_isolation.2.2.2.2 envC8 stateC7 "zlib.h" '<' []
    rfl (by decide) (by decide) rfl rfl

/-! ## Sibling source files (claim C9) -/

/-- C9: when a quoted header is found locally and a file with the same
base name and the `.cpp` source extension exists alongside it
(lines 526–530), that file is added to the output source set. -/
theorem claim_C9_sibling_source (env : Env) (s : EngineState)
    (name : String) (rest : List (String × Char)) (p : String)
    (hw : s.worklist = (name, '"') :: rest)
    (hstd : name ∉ CPP_STANDARD_HEADERS)
    (hres : name ∉ s.processed_local_headers)
    (hfind : env.findLocal name = some p)
    (hcpp : env.pathExists (splitextRoot p ++ ".cpp") = true) :
    ∃ s', step env s = some s' ∧ splitextRoot p ++ ".cpp" ∈ s'.all_source_files := by
  rcases s with ⟨wl, pl, ps, sf, ip, lb⟩
  simp only at hw hres
  subst hw
  simp only [step, stepQ, if_true, hfind]
  rw [if_neg (fun hc => hc.elim hstd hres)]
  refine ⟨_, rfl, ?_⟩
  simp only
  rw [if_pos hcpp]
  exact mem_insertSet_self _ _

/-- The cyclic-project environment extended with a sibling source file
`/proj/b/B.cpp` next to `B.h`. -/
def envC9 : Env where
  findLocal := fun n =>
    if n = "B.h" then some "/proj/b/B.h"
    else if n = "C.h" then some "/proj/c/C.h"
    else none
  fileLines := fun p =>
    if p = "/proj/b/B.h" then ["#include \"C.h\""]
    else if p = "/proj/c/C.h" then ["#include \"B.h\""]
    else []
  pathExists := fun p => p = "/proj/b/B.cpp"
  sourceSymbols := []
  fileContent := fun _ => none
  candidates := fun _ => []
  pkgInfo := fun _ => ([], [])

/-- Witness for C9: resolving `B.h` picks up `/proj/b/B.cpp`. -/
theorem claim_C9_witness :
    ∃ s', step envC9 stateC1 = some s' ∧
      splitextRoot "/proj/b/B.h" ++ ".cpp" ∈ s'.all_source_files :=
  claim_C9_sibling_source envC9 stateC1 "B.h" [] "/proj/b/B.h"
    rfl (by decide) (by decide) rfl (by decide)

/-! ## Mismatched include delimiters (claim C10) -/

/-- C10: the include regex accepts a line whose closing delimiter does not
match its opening one — `#include "name>` and `#include <name"` are both
accepted — and the extractor records the pair `(name, opening delimiter)`,
so locality classification depends only on the opening character. -/
theorem claim_C10_mismatched_delimiters (name : String)
    (hne : name.data ≠ [])
    (hok : ∀ ch ∈ name.data, ch ≠ '>' ∧ ch ≠ '"') :
    parseIncludeLine ("#include \"" ++ name ++ ">") = some (name, '"') ∧
    parseIncludeLine ("#include <" ++ name ++ "\"") = some (name, '<') ∧
    extract_headers_from_file ["#include \"" ++ name ++ ">"] = [(name, '"')] := by
  have hpred : ∀ ch ∈ name.data, ((ch ≠ '>' && ch ≠ '"') = true) := by
    intro ch hch
    rcases hok ch hch with ⟨ha, hb⟩
    simp [ha, hb]
  have hgt0 : (['>'] : List Char).takeWhile (fun c => c ≠ '>' && c ≠ '"') = [] := by decide
  have hgt1 : (['>'] : List Char).dropWhile (fun c => c ≠ '>' && c ≠ '"') = ['>'] := by decide
  have hqt0 : (['"'] : List Char).takeWhile (fun c => c ≠ '>' && c ≠ '"') = [] := by decide
  have hqt1 : (['"'] : List Char).dropWhile (fun c => c ≠ '>' && c ≠ '"') = ['"'] := by decide
  have h1 : parseIncludeLine ("#include \"" ++ name ++ ">") = some (name, '"') := by
    have hred : parseIncludeLine ("#include \"" ++ name ++ ">") =
        (match (name.data ++ ['>']).takeWhile (fun c => c ≠ '>' && c ≠ '"'),
               (name.data ++ ['>']).dropWhile (fun c => c ≠ '>' && c ≠ '"') with
         | _ :: _, _ :: _ =>
           some (String.mk ((name.data ++ ['>']).takeWhile (fun c => c ≠ '>' && c ≠ '"')), '"')
         | _, _ => none) := rfl
    rw [hred, List.takeWhile_append_of_pos hpred, List.dropWhile_append_of_pos hpred,
      hgt0, hgt1, List.append_nil]
    rcases hx : name.data with _ | ⟨hd0, tl0⟩
    · exact absurd hx hne
    · exact congrArg (fun l => some (String.mk l, '"')) hx.symm
  refine ⟨h1, ?_, ?_⟩
  · have hred : parseIncludeLine ("#include <" ++ name ++ "\"") =
        (match (name.data ++ ['"']).takeWhile (fun c => c ≠ '>' && c ≠ '"'),
               (name.data ++ ['"']).dropWhile (fun c => c ≠ '>' && c ≠ '"') with
         | _ :: _, _ :: _ =>
           some (String.mk ((name.data ++ ['"']).takeWhile (fun c => c ≠ '>' && c ≠ '"')), '<')
         | _, _ => none) := rfl
    rw [hred, List.takeWhile_append_of_pos hpred, List.dropWhile_append_of_pos hpred,
      hqt0, hqt1, List.append_nil]
    rcases hx : name.data with _ | ⟨hd0, tl0⟩
    · exact absurd hx hne
    · exact congrArg (fun l => some (String.mk l, '<')) hx.symm
  · simp [extract_headers_from_file, h1, insertHeaderPair]

/-- Witness for C10 at the header name `png.h`. -/
theorem claim_C10_witness :
    ("png.h" : String).data ≠ [] ∧
    (parseIncludeLine ("#include \"" ++ "png.h" ++ ">") = some ("png.h", '"') ∧
      parseIncludeLine ("#include <" ++ "png.h" ++ "\"") = some ("png.h", '<') ∧
      extract_headers_from_file ["#include \"" ++ "png.h" ++ ">"] = [("png.h", '"')]) :=
  ⟨by decide, claim_C10_mismatched_delimiters "png.h" (by decide) (by decide)⟩

end Cguess
